import Mathlib

/-!
Verification development for the DQN playground training scripts
(flappybird_kerasrl_train.py, flappybird_kerasrl_test.py,
lunarlander_kerasrl_train.py).

The scripts compose the keras-rl library's DQN machinery
(DQNAgent, SequentialMemory, LinearAnnealedPolicy) with a
repository-defined frame processor (FlappyBirdProcessor) and a
TensorBoard logging callback (TensorboardCallback).  The processor and
callback are embedded directly from the source.  The DQN machinery the
scripts configure (target computation, replay ring buffer, epsilon
annealing, hard target sync, warmup gating) is not part of the
repository's own files, so those operations are modelled from the
specification's description, as flagged in their doc comments.

Real-valued quantities (rewards, Q-values, epsilon) are embedded as
rationals; stored uint8 pixel values as naturals reduced mod 256 where
the source casts to uint8.
-/

namespace DQNPlayground

/-! ## Frame Processor (FlappyBirdProcessor, flappybird_kerasrl_train.py) -/

/-- Embedding of FlappyBirdProcessor.process_reward:
return np.clip(reward, -1., 1.).  np.clip(a, lo, hi) is
min(hi, max(a, lo)). -/
def process_reward (reward : ℚ) : ℚ :=
  min 1 (max reward (-1))

/-- Embedding of FlappyBirdProcessor.process_state_batch:
batch.astype(float32) / 255, applied elementwise to the stored uint8
values of a batch (flattened view of the batch's elements). -/
def process_state_batch (batch : List ℕ) : List ℚ :=
  batch.map (fun (v : ℕ) => (v : ℚ) / 255)

lemma process_reward_le_one (r : ℚ) : process_reward r ≤ 1 :=
  min_le_left _ _

lemma neg_one_le_process_reward (r : ℚ) : -1 ≤ process_reward r :=
  le_min (by norm_num) (le_max_right _ _)

lemma process_reward_eq_self (r : ℚ) (h1 : -1 ≤ r) (h2 : r ≤ 1) :
    process_reward r = r := by
  unfold process_reward
  rw [max_eq_left h1, min_eq_right h2]

/-- C5: reward clipping is idempotent:
process_reward (process_reward r) = process_reward r for every r. -/
theorem process_reward_idempotent (r : ℚ) :
    process_reward (process_reward r) = process_reward r :=
  process_reward_eq_self _ (neg_one_le_process_reward r) (process_reward_le_one r)

/-- C6: process_reward always lands in [-1, 1], and is the identity on
rewards already inside that range (clipping min(1, max(-1, r))). -/
theorem process_reward_range_and_identity (r : ℚ) :
    -1 ≤ process_reward r ∧ process_reward r ≤ 1 ∧
      (-1 ≤ r → r ≤ 1 → process_reward r = r) :=
  ⟨neg_one_le_process_reward r, process_reward_le_one r,
    process_reward_eq_self r⟩

/-- Witness for C6 at the concrete reward 0. -/
theorem process_reward_range_and_identity_witness :
    -1 ≤ process_reward 0 ∧ process_reward 0 ≤ 1 ∧
      process_reward 0 = 0 :=
  ⟨(process_reward_range_and_identity 0).1,
   (process_reward_range_and_identity 0).2.1,
   (process_reward_range_and_identity 0).2.2 (by simp) (by simp)⟩

/-- C7: on a batch of stored uint8 values (each at most 255),
process_state_batch is exactly elementwise division by 255, and every
resulting element lies in [0, 1]. -/
theorem process_state_batch_rescales (batch : List ℕ)
    (h : ∀ v ∈ batch, v ≤ 255) :
    process_state_batch batch = batch.map (fun (v : ℕ) => (v : ℚ) / 255) ∧
      ∀ y ∈ process_state_batch batch, 0 ≤ y ∧ y ≤ 1 := by
  refine ⟨rfl, ?_⟩
  intro y hy
  rw [process_state_batch, List.mem_map] at hy
  obtain ⟨v, hv, rfl⟩ := hy
  refine ⟨div_nonneg (Nat.cast_nonneg v) (by norm_num), ?_⟩
  rw [div_le_one (by norm_num)]
  exact_mod_cast h v hv

/-- Witness for C7 at the concrete uint8 batch [0, 128, 255]. -/
theorem process_state_batch_rescales_witness :
    process_state_batch [0, 128, 255] =
        [0, 128, 255].map (fun (v : ℕ) => (v : ℚ) / 255) ∧
      ∀ y ∈ process_state_batch [0, 128, 255], 0 ≤ y ∧ y ≤ 1 :=
  process_state_batch_rescales [0, 128, 255] (by decide)

/-! ## Target Network Manager: bootstrapped target computation -/

/-- Maximum of a list of Q-values (the max over actions); 0 for the
empty list (the configured environments always have at least one
action). -/
def maxQ (q : List ℚ) : ℚ :=
  q.foldl max (q.headD 0)

/-- Modelled from the spec: the bootstrapped training-target computation
inside keras-rl's DQNAgent, which the scripts configure but whose code
is not part of the repository: for each sampled transition,
target = reward when terminal is true, else
target = reward + gamma * max over actions of the target network's
prediction on the next-state window. -/
def compute_target (gamma reward : ℚ) (terminal : Bool) (next_q : List ℚ) : ℚ :=
  if terminal then reward else reward + gamma * maxQ next_q

/-- C1: a terminal transition's target is exactly the reward, with no
bootstrap term, for every gamma and every next-state Q-value vector
(in particular for the spec's synthetic gamma = 0.9, reward = 5 test);
a non-terminal transition's target with the FlappyBird gamma = 0.99 is
reward + 0.99 * max over actions of the target network's prediction. -/
theorem compute_target_terminal_and_bootstrap (gamma reward : ℚ) (next_q : List ℚ) :
    compute_target gamma reward true next_q = reward ∧
      compute_target (9/10) 5 true next_q = 5 ∧
      compute_target (99/100) reward false next_q =
        reward + (99/100) * maxQ next_q :=
  ⟨rfl, rfl, rfl⟩

/-! ## Exploration Policy: linearly annealed epsilon schedule -/

/-- Modelled from the spec: the current exploration value of keras-rl's
LinearAnnealedPolicy (configured by the scripts, not part of the
repository files): eps(step) =
max(eps_min, eps_max - step * (eps_max - eps_min) / anneal_steps). -/
def linear_annealed_value (eps_max eps_min anneal_steps : ℚ) (step : ℕ) : ℚ :=
  max eps_min (eps_max - (step : ℚ) * (eps_max - eps_min) / anneal_steps)

/-- The epsilon schedule as configured in flappybird_kerasrl_train.py:
value_max = 1.0, value_min = 0.1, nb_steps = 1000000. -/
def eps (step : ℕ) : ℚ :=
  linear_annealed_value 1 (1/10) 1000000 step

/-- C3: the configured schedule satisfies
eps(step) = max(eps_min, eps_max - step * (eps_max - eps_min) / anneal_steps)
with eps_max = 1, eps_min = 1/10, anneal_steps = 10^6; it is
non-increasing (eps step1 >= eps step2 for step1 < step2 <= 10^6), and
constantly eps_min after the annealing interval. -/
theorem eps_schedule (step1 step2 step : ℕ) (h12 : step1 < step2)
    (h2 : step2 ≤ 1000000) (hs : 1000000 < step) :
    (∀ n : ℕ, eps n = max (1/10) (1 - (n : ℚ) * (1 - 1/10) / 1000000)) ∧
      eps step2 ≤ eps step1 ∧ eps step = 1/10 := by
  refine ⟨fun n => rfl, ?_, ?_⟩
  · unfold eps linear_annealed_value
    have hc : (step1 : ℚ) ≤ (step2 : ℚ) := by exact_mod_cast h12.le
    refine max_le_max le_rfl (sub_le_sub_left ?_ 1)
    have hm := mul_le_mul_of_nonneg_right hc (show (0:ℚ) ≤ 1 - 1/10 by norm_num)
    linarith
  · unfold eps linear_annealed_value
    have h : (1000000 : ℚ) < (step : ℚ) := by exact_mod_cast hs
    have hle : 1 - (step : ℚ) * (1 - 1/10) / 1000000 ≤ 1/10 := by nlinarith
    exact max_eq_left hle

/-- Witness for C3 at step1 = 0, step2 = 1000000, step = 1000001. -/
theorem eps_schedule_witness :
    (∀ n : ℕ, eps n = max (1/10) (1 - (n : ℚ) * (1 - 1/10) / 1000000)) ∧
      eps 1000000 ≤ eps 0 ∧ eps 1000001 = 1/10 :=
  eps_schedule 0 1000000 1000001 (by decide) (by decide) (by decide)

/-! ## Replay Memory: capacity-bounded ring buffer -/

/-- Modelled from the spec: one append to the Replay Memory's
capacity-bounded circular buffer (keras-rl's SequentialMemory,
constructed by the scripts with limit = 1000000 resp. 100000 but not
part of the repository files).  The list holds the retrievable entries,
oldest first; below capacity the entry is appended, at capacity the
oldest entry is evicted (ring semantics). -/
def ring_append {T : Type} (capacity : ℕ) (buf : List T) (x : T) : List T :=
  if buf.length < capacity then buf ++ [x] else buf.tail ++ [x]

/-- A whole sequence of appends, oldest first, starting from a buffer. -/
def ring_append_all {T : Type} (capacity : ℕ) (buf : List T) (xs : List T) : List T :=
  xs.foldl (ring_append capacity) buf

lemma ring_append_all_nil_eq {T : Type} (capacity : ℕ) (hc : 0 < capacity)
    (xs : List T) :
    ring_append_all capacity [] xs = xs.drop (xs.length - capacity) := by
  induction xs using List.reverseRecOn with
  | nil => simp [ring_append_all]
  | append_singleton ys x ih =>
    have hfold : ring_append_all capacity [] (ys ++ [x]) =
        ring_append capacity (ring_append_all capacity [] ys) x := by
      simp [ring_append_all, List.foldl_append]
    rw [hfold, ih, ring_append]
    by_cases hlen : ys.length < capacity
    · have h1 : ys.length - capacity = 0 := Nat.sub_eq_zero_of_le hlen.le
      have h2 : (ys ++ [x]).length - capacity = 0 := by
        simp only [List.length_append, List.length_singleton]
        omega
      rw [h1, List.drop_zero, if_pos hlen, h2, List.drop_zero]
    · push_neg at hlen
      have hlen' : ¬ (ys.drop (ys.length - capacity)).length < capacity := by
        rw [List.length_drop]
        omega
      rw [if_neg hlen', List.tail_drop]
      have hm : ys.length - capacity + 1 ≤ ys.length := by omega
      have hidx : (ys ++ [x]).length - capacity = ys.length - capacity + 1 := by
        simp only [List.length_append, List.length_singleton]
        omega
      rw [hidx, List.drop_append_of_le_length hm]

/-- C2: for every sequence of appended entries, the ring buffer's size
never exceeds the configured capacity, and after appending
capacity + k entries exactly the last capacity appended entries remain
retrievable (the oldest k are evicted in ring order). -/
theorem ring_memory_capacity_bound {T : Type} (capacity k : ℕ)
    (hc : 0 < capacity) (xs : List T) (hlen : xs.length = capacity + k) :
    (∀ ys : List T, (ring_append_all capacity [] ys).length ≤ capacity) ∧
      ring_append_all capacity [] xs = xs.drop k := by
  constructor
  · intro ys
    rw [ring_append_all_nil_eq capacity hc, List.length_drop]
    omega
  · rw [ring_append_all_nil_eq capacity hc, hlen, Nat.add_sub_cancel_left]

/-- Witness for C2 with capacity 2 and the three appended entries
[10, 20, 30] (k = 1). -/
theorem ring_memory_capacity_bound_witness :
    (∀ ys : List ℤ, (ring_append_all 2 [] ys).length ≤ 2) ∧
      ring_append_all 2 [] ([10, 20, 30] : List ℤ) = ([10, 20, 30] : List ℤ).drop 1 :=
  ring_memory_capacity_bound 2 1 (by decide) ([10, 20, 30] : List ℤ) (by decide)

/-! ## Target Network Manager: hard sync -/

/-- State of the Target Network Manager together with the training-step
counter: the online parameter set (updated every training step), the
lagged target parameter set, the step of the last sync, and the current
training-step count. -/
structure SyncState (P : Type) where
  online : P
  target : P
  last_sync : ℕ
  step : ℕ

/-- Modelled from the spec: maybe_sync in hard mode (keras-rl's
DQNAgent with target_model_update = 10000, configured by the scripts
but not part of the repository files): if step - last_sync reaches the
sync interval, copy the online parameters into the target parameters
and reset last_sync; otherwise leave the state unchanged. -/
def maybe_sync {P : Type} (sync_interval : ℕ) (s : SyncState P) : SyncState P :=
  if sync_interval ≤ s.step - s.last_sync then
    { s with target := s.online, last_sync := s.step }
  else s

/-- Modelled from the spec: one training step updates the online
parameters (by an arbitrary gradient step f), advances the step
counter, then runs maybe_sync. -/
def train_step {P : Type} (sync_interval : ℕ) (f : P → P) (s : SyncState P) :
    SyncState P :=
  maybe_sync sync_interval { s with online := f s.online, step := s.step + 1 }

/-- A sequence of training steps with the given per-step online
updates, oldest first. -/
def run_train_steps {P : Type} (sync_interval : ℕ) (fs : List (P → P))
    (s : SyncState P) : SyncState P :=
  fs.foldl (fun st f => train_step sync_interval f st) s

lemma run_train_steps_no_sync {P : Type} (N : ℕ) (fs : List (P → P))
    (s : SyncState P) (hls : s.last_sync ≤ s.step)
    (hin : s.step - s.last_sync + fs.length < N) :
    (run_train_steps N fs s).target = s.target ∧
      (run_train_steps N fs s).last_sync = s.last_sync ∧
      (run_train_steps N fs s).step = s.step + fs.length := by
  induction fs generalizing s with
  | nil => simp [run_train_steps]
  | cons f fs ih =>
    have hcond : ¬ N ≤ s.step + 1 - s.last_sync := by
      simp only [List.length_cons] at hin
      omega
    have hstep : train_step N f s = { s with online := f s.online, step := s.step + 1 } := by
      unfold train_step maybe_sync
      exact if_neg hcond
    have hrun : run_train_steps N (f :: fs) s = run_train_steps N fs (train_step N f s) := rfl
    rw [hrun, hstep]
    have hin' : s.step + 1 - s.last_sync + fs.length < N := by
      simp only [List.length_cons] at hin
      omega
    obtain ⟨e1, e2, e3⟩ := ih { s with online := f s.online, step := s.step + 1 }
      (by simpa using Nat.le_succ_of_le hls) (by simpa using hin')
    refine ⟨by simpa using e1, by simpa using e2, ?_⟩
    simp only [List.length_cons]
    rw [e3]
    show s.step + 1 + fs.length = s.step + (fs.length + 1)
    omega

/-- C4: in hard sync mode with sync_interval = 10000 (the FlappyBird
configuration target_model_update = 10000), starting from a freshly
synced state, the target parameters are unchanged over any run of fewer
than 10000 training steps even as the online parameters change, and
after exactly 10000 training steps the target parameters equal the
online parameters. -/
theorem hard_sync_after_interval {P : Type} (s0 : SyncState P)
    (h0 : s0.last_sync = s0.step) (gs fs : List (P → P))
    (hlt : gs.length < 10000) (heq : fs.length = 10000) :
    (run_train_steps 10000 gs s0).target = s0.target ∧
      (run_train_steps 10000 fs s0).target = (run_train_steps 10000 fs s0).online := by
  constructor
  · exact (run_train_steps_no_sync 10000 gs s0 h0.le (by omega)).1
  · rcases List.eq_nil_or_concat fs with rfl | ⟨ys, f, rfl⟩
    · simp only [List.length_nil] at heq
      exact absurd heq (by decide)
    · simp only [List.concat_eq_append] at heq ⊢
      have hys : ys.length = 9999 := by
        simp only [List.length_append, List.length_cons, List.length_nil] at heq
        omega
      obtain ⟨e1, e2, e3⟩ := run_train_steps_no_sync 10000 ys s0 h0.le (by omega)
      have hrun : run_train_steps 10000 (ys ++ [f]) s0 =
          train_step 10000 f (run_train_steps 10000 ys s0) := by
        simp [run_train_steps, List.foldl_append]
      set s1 := run_train_steps 10000 ys s0 with hs1
      have hcond : 10000 ≤ s1.step + 1 - s1.last_sync := by
        rw [e2, e3, hys]
        omega
      have : train_step 10000 f s1 =
          { online := f s1.online, target := f s1.online,
            last_sync := s1.step + 1, step := s1.step + 1 } := by
        unfold train_step maybe_sync
        rw [if_pos (by simpa using hcond)]
      rw [hrun, this]

/-- Witness for C4: parameters in ℤ, a fresh state with online 0 and
target 1, one step of online drift (target untouched), and 10000 steps
of online drift (target equal to online afterwards). -/
theorem hard_sync_after_interval_witness :
    (run_train_steps 10000 [fun (p : ℤ) => p + 3] ⟨0, 1, 5, 5⟩).target =
        (⟨0, 1, 5, 5⟩ : SyncState ℤ).target ∧
      (run_train_steps 10000 (List.replicate 10000 (fun (p : ℤ) => p + 1)) ⟨0, 1, 5, 5⟩).target =
        (run_train_steps 10000 (List.replicate 10000 (fun (p : ℤ) => p + 1)) ⟨0, 1, 5, 5⟩).online :=
  hard_sync_after_interval ⟨0, 1, 5, 5⟩ rfl _ _ (by decide) (by rw [List.length_replicate])

/-! ## Training Loop Controller: warmup gating -/

/-- Observable per-step effects of the training loop: whether the
transition is stored and whether a training step (train_on_batch) runs. -/
structure StepEffect where
  stored : Bool
  trained : Bool

/-- Modelled from the spec: the per-step behaviour of the training loop
controller (keras-rl's DQNAgent.fit, configured with
nb_steps_warmup = 50000 for FlappyBird and 10 for LunarLander, not part
of the repository files): every global step stores a transition; a
training step runs only after the warmup period, once every
train_interval steps. -/
def loop_step_effect (warmup_steps train_interval global_step : ℕ) : StepEffect :=
  { stored := true,
    trained := decide (warmup_steps < global_step) &&
      decide (global_step % train_interval = 0) }

/-- C8: during the first warmup_steps global steps, transitions are
stored but no training step is ever executed (this covers both
configurations, nb_steps_warmup = 50000 and 10). -/
theorem warmup_stores_without_training (warmup_steps train_interval global_step : ℕ)
    (h : global_step ≤ warmup_steps) :
    (loop_step_effect warmup_steps train_interval global_step).stored = true ∧
      (loop_step_effect warmup_steps train_interval global_step).trained = false := by
  have hno : ¬ warmup_steps < global_step := Nat.not_lt.mpr h
  refine ⟨rfl, ?_⟩
  simp [loop_step_effect, hno]

/-- Witness for C8 at global step 3 of the FlappyBird configuration
(warmup 50000, train interval 4). -/
theorem warmup_stores_without_training_witness :
    (loop_step_effect 50000 4 3).stored = true ∧
      (loop_step_effect 50000 4 3).trained = false :=
  warmup_stores_without_training 50000 4 3 (by decide)

/-! ## TensorboardCallback (flappybird_kerasrl_train.py) -/

/-- Embedding of collections.deque appending with a maxlen bound, as
used by TensorboardCallback's running_data deques: the new value goes
to the right and only the last maxlen entries are kept (the oldest is
dropped when a full deque receives a new value). -/
def deque_append {α : Type} (maxlen : ℕ) (buf : List α) (x : α) : List α :=
  (buf ++ [x]).drop ((buf ++ [x]).length - maxlen)

/-- Embedding of TensorboardCallback's state: the constructor arguments
log_interval, reward_buffer_length and episode_duration_buffer_length,
the two bounded deques of running_data, and the iterations counter.
The TensorBoard writer itself is an external side effect and carries no
state the claims mention. -/
structure TBState where
  log_interval : ℕ
  reward_buffer_length : ℕ
  episode_duration_buffer_length : ℕ
  reward_data : List ℚ
  episode_duration_data : List ℕ
  iterations : ℕ

/-- Embedding of TensorboardCallback.__init__ with the given buffer
bounds: both deques empty, iterations 0. -/
def tb_init (log_interval reward_buffer_length episode_duration_buffer_length : ℕ) :
    TBState :=
  ⟨log_interval, reward_buffer_length, episode_duration_buffer_length, [], [], 0⟩

/-- Embedding of TensorboardCallback.on_step_end: appends the step's
reward to the bounded reward deque and increments iterations (the
periodic mean logging writes to the external TensorBoard sink and
changes no state). -/
def on_step_end (s : TBState) (reward : ℚ) : TBState :=
  { s with
    reward_data := deque_append s.reward_buffer_length s.reward_data reward,
    iterations := s.iterations + 1 }

/-- Embedding of TensorboardCallback.on_episode_end: appends the
episode's nb_episode_steps to the bounded episode-duration deque. -/
def on_episode_end (s : TBState) (nb_episode_steps : ℕ) : TBState :=
  { s with
    episode_duration_data :=
      deque_append s.episode_duration_buffer_length s.episode_duration_data
        nb_episode_steps }

/-- One callback invocation: either a step end carrying the logged
reward or an episode end carrying nb_episode_steps. -/
inductive TBEvent where
  | stepEnd (reward : ℚ) : TBEvent
  | episodeEnd (nb_episode_steps : ℕ) : TBEvent

/-- Whether an event is an on_step_end invocation. -/
def TBEvent.isStepEnd : TBEvent → Bool
  | TBEvent.stepEnd _ => true
  | TBEvent.episodeEnd _ => false

/-- Dispatch of one callback invocation on the state. -/
def tb_apply (s : TBState) (e : TBEvent) : TBState :=
  match e with
  | TBEvent.stepEnd r => on_step_end s r
  | TBEvent.episodeEnd n => on_episode_end s n

/-- A whole sequence of callback invocations, oldest first. -/
def tb_run (s : TBState) (es : List TBEvent) : TBState :=
  es.foldl tb_apply s

lemma deque_append_length_le {α : Type} (maxlen : ℕ) (buf : List α) (x : α) :
    (deque_append maxlen buf x).length ≤ maxlen := by
  simp only [deque_append, List.length_drop]
  omega

lemma tb_run_invariant (es : List TBEvent) (s : TBState)
    (h1 : s.reward_data.length ≤ s.reward_buffer_length)
    (h2 : s.episode_duration_data.length ≤ s.episode_duration_buffer_length) :
    (tb_run s es).reward_data.length ≤ s.reward_buffer_length ∧
      (tb_run s es).episode_duration_data.length ≤ s.episode_duration_buffer_length ∧
      (tb_run s es).iterations =
        s.iterations + (es.filter TBEvent.isStepEnd).length := by
  induction es generalizing s with
  | nil => simpa [tb_run] using ⟨h1, h2⟩
  | cons e es ih =>
    have hrun : tb_run s (e :: es) = tb_run (tb_apply s e) es := rfl
    rw [hrun]
    cases e with
    | stepEnd r =>
      obtain ⟨e1, e2, e3⟩ := ih (on_step_end s r)
        (by simpa [on_step_end] using deque_append_length_le _ _ _)
        (by simpa [on_step_end] using h2)
      refine ⟨by simpa [on_step_end] using e1, by simpa [on_step_end] using e2, ?_⟩
      rw [show tb_apply s (TBEvent.stepEnd r) = on_step_end s r from rfl, e3]
      simp [on_step_end, TBEvent.isStepEnd, List.filter]
      omega
    | episodeEnd n =>
      obtain ⟨e1, e2, e3⟩ := ih (on_episode_end s n)
        (by simpa [on_episode_end] using h1)
        (by simpa [on_episode_end] using deque_append_length_le _ _ _)
      refine ⟨by simpa [on_episode_end] using e1, by simpa [on_episode_end] using e2, ?_⟩
      rw [show tb_apply s (TBEvent.episodeEnd n) = on_episode_end s n from rfl, e3]
      simp [on_episode_end, TBEvent.isStepEnd, List.filter]

/-- C10: over any sequence of on_step_end and on_episode_end
invocations on a freshly constructed TensorboardCallback, the reward
deque never holds more than reward_buffer_length entries, the
episode-duration deque never holds more than
episode_duration_buffer_length entries, the iterations counter equals
the number of on_step_end invocations (one increment per call), and a
full nonempty deque receiving a new value drops its oldest entry. -/
theorem tensorboard_buffer_invariants
    (li rl el : ℕ) (es : List TBEvent) (buf : List ℚ) (x : ℚ)
    (hbuf : buf.length = rl) (hrl : 0 < rl) :
    (tb_run (tb_init li rl el) es).reward_data.length ≤ rl ∧
      (tb_run (tb_init li rl el) es).episode_duration_data.length ≤ el ∧
      (tb_run (tb_init li rl el) es).iterations =
        (es.filter TBEvent.isStepEnd).length ∧
      deque_append rl buf x = buf.tail ++ [x] := by
  obtain ⟨e1, e2, e3⟩ := tb_run_invariant es (tb_init li rl el)
    (by simp [tb_init]) (by simp [tb_init])
  refine ⟨e1, e2, by simpa [tb_init] using e3, ?_⟩
  have hlen : (buf ++ [x]).length - rl = 1 := by
    simp only [List.length_append, List.length_cons, List.length_nil]
    omega
  rw [deque_append, hlen]
  have h1 : 1 ≤ buf.length := by omega
  rw [List.drop_append_of_le_length h1, List.drop_one]

/-- Witness for C10 with buffer bounds 2 and 1, four invocations
(three step ends, one episode end), and the full deque [3, 4]
receiving 7. -/
theorem tensorboard_buffer_invariants_witness :
    (tb_run (tb_init 5 2 1)
        [TBEvent.stepEnd 1, TBEvent.episodeEnd 9, TBEvent.stepEnd 2,
          TBEvent.stepEnd 3]).reward_data.length ≤ 2 ∧
      (tb_run (tb_init 5 2 1)
        [TBEvent.stepEnd 1, TBEvent.episodeEnd 9, TBEvent.stepEnd 2,
          TBEvent.stepEnd 3]).episode_duration_data.length ≤ 1 ∧
      (tb_run (tb_init 5 2 1)
        [TBEvent.stepEnd 1, TBEvent.episodeEnd 9, TBEvent.stepEnd 2,
          TBEvent.stepEnd 3]).iterations =
        ([TBEvent.stepEnd 1, TBEvent.episodeEnd 9, TBEvent.stepEnd 2,
          TBEvent.stepEnd 3].filter TBEvent.isStepEnd).length ∧
      deque_append 2 ([3, 4] : List ℚ) 7 = ([3, 4] : List ℚ).tail ++ [7] :=
  tensorboard_buffer_invariants 5 2 1
    [TBEvent.stepEnd 1, TBEvent.episodeEnd 9, TBEvent.stepEnd 2, TBEvent.stepEnd 3]
    ([3, 4] : List ℚ) 7 (by decide) (by decide)

/-! ## FlappyBirdProcessor.process_observation -/

/-- A raw RGB pixel. -/
abbrev RGB := ℕ × ℕ × ℕ

/-- Modelled from the spec: PIL's Image.resize, an external collaborator
(the spec's scope section lists frame image decoding/resizing as out of
scope).  It returns an image with exactly the requested height and
width for every source image, sampling source pixels
(nearest-neighbour here; the interpolation details are external and
irrelevant to the shape behaviour the claim is about). -/
def resize_image (img : List (List RGB)) (w h : ℕ) : List (List RGB) :=
  (List.range h).map (fun y =>
    (List.range w).map (fun x =>
      ((img.getD (y * img.length / h) []).getD (x * (img.headD []).length / w)
        (0, 0, 0))))

/-- Modelled from the spec: PIL's convert to mode L, an external
collaborator; ITU-R 601-2 luma transform of one RGB pixel. -/
def to_grey (p : RGB) : ℕ :=
  (299 * p.1 + 587 * p.2.1 + 114 * p.2.2) / 1000

/-- Embedding of FlappyBirdProcessor.process_observation: the raw frame
is resized to INPUT_SHAPE = (84, 84), converted to greyscale and cast
to uint8 (reduction mod 256).  The source has no shape check and no
failure path for image inputs; the Except result type makes the absence
of the spec's ShapeError failure expressible. -/
def process_observation (observation : List (List RGB)) :
    Except String (List (List ℕ)) :=
  Except.ok ((resize_image observation 84 84).map
    (fun row => row.map (fun p => to_grey p % 256)))

/-- Counterexample to C9 as stated: the concrete 1x1 raw observation
[[(5,5,5)]] does not have the expected environment frame shape, yet
process_observation does not fail with ShapeError (or at all): it
returns an ordinary 84x84 result. -/
theorem process_observation_counterexample :
    (process_observation [[(5,5,5)]]).toOption.map List.length = some 84 ∧
      (process_observation [[(5,5,5)]]).toOption.map
        (fun out => out.all (fun row => row.length == 84)) = some true := by
  constructor
  · simp [process_observation, resize_image, Except.toOption]
  · simp [process_observation, resize_image, Except.toOption, List.all_eq_true,
      List.mem_map]

/-- C9 amended: process_observation performs no shape validation and
never fails with ShapeError; for every raw observation, of the expected
shape or not, it returns a fixed-shape result: an 84x84 single-channel
array of uint8 values (each below 256). -/
theorem process_observation_always_84x84 (observation : List (List RGB)) :
    ∃ out, process_observation observation = Except.ok out ∧
      out.length = 84 ∧ ∀ row ∈ out, row.length = 84 ∧ ∀ v ∈ row, v < 256 := by
  refine ⟨_, rfl, ?_, ?_⟩
  · simp [resize_image]
  · intro row hrow
    rcases List.mem_map.mp hrow with ⟨r, hr, rfl⟩
    constructor
    · rcases List.mem_map.mp hr with ⟨y, _, rfl⟩
      simp
    · intro v hv
      rcases List.mem_map.mp hv with ⟨p, _, rfl⟩
      exact Nat.mod_lt _ (by norm_num)

end DQNPlayground
